import Mathlib

/-!
# Writeoff — verification of the evaluation-and-refinement core

A shallow embedding, in Lean 4, of the core of the `writeoff` CLI
(judgment parsing/normalization, score aggregation, the flywheel
refinement loop, the bounded concurrency limiter and the line diff
engine), together with theorems settling the specification claims.

Conventions used throughout:
* JavaScript `number` values that only ever hold exact decimal rubric
  scores and weights are embedded as `ℚ` (all arithmetic appearing in
  the embedded code paths — sums, products and divisions of small
  integers — is exact in IEEE doubles, so `ℚ` is faithful there).
* A JavaScript `Map` is embedded either as a Lean function updated with
  `Function.update` (insertion order only matters through last-write-wins
  semantics, which `Function.update` folding reproduces) or as a lookup
  list, as noted at each definition.
* `Date` timestamps are embedded as opaque `Nat` values.
* Asynchronous code is embedded by explicit oracle/trace passing: each
  external call site (an LLM request) is given its response as data.
-/

namespace Writeoff

/-- The fixed rubric keys (`keyof JudgingCriteria`, src/src/types/index.ts). -/
inductive Criterion where
  | narrative
  | «structure»
  | audienceFit
  | accuracy
  | aiDetection
  deriving DecidableEq, Repr

open Criterion

/-- `CRITERIA_WEIGHTS` (src/src/types/index.ts lines 225–231). -/
def CRITERIA_WEIGHTS : Criterion → ℚ
  | .narrative => 30
  | .«structure» => 20
  | .audienceFit => 20
  | .accuracy => 15
  | .aiDetection => 15

/-- `CRITERIA_KEYS = Object.keys(CRITERIA_WEIGHTS)` in the object-literal
insertion order of `CRITERIA_WEIGHTS` (src/unnamed/part_007 line 26). -/
def CRITERIA_KEYS : List Criterion :=
  [.narrative, .«structure», .audienceFit, .accuracy, .aiDetection]

/-- `CriterionScore` (src/src/types/index.ts). -/
structure CriterionScore where
  criterion : Criterion
  score : ℚ
  feedback : String
  deriving DecidableEq, Repr

/-- `JudgmentResult` (src/src/types/index.ts).  The optional
`parseWarnings` array is embedded as a plain list (absent = `[]`), and the
`Date` as a `Nat`. -/
structure JudgmentResult where
  judgeModelId : String
  judgeFriendlyName : String
  postModelId : String
  scores : List CriterionScore
  overallScore : ℚ
  overallScoreComputed : ℚ
  parseWarnings : List String
  judgedAt : Nat
  deriving DecidableEq, Repr

/-- The `scoreByCriterion` map of `computeOverallFromScores`
(src/unnamed/part_007 lines 55–58): a JS `Map` built by successive `set`
calls, i.e. last write wins, embedded as a `Function.update` fold. -/
def scoreMap (scores : List CriterionScore) : Criterion → Option ℚ :=
  scores.foldl (fun m s => Function.update m s.criterion (some s.score)) fun _ => none

/-- `computeOverallFromScores` (src/unnamed/part_007 lines 54–71): for each
rubric key, missing criteria read as `?? 0`; the accumulator pair is
`(totalWeight, weightedSum)` and the final value is
`totalWeight > 0 ? weightedSum / totalWeight : 0`. -/
def computeOverallFromScores (scores : List CriterionScore) : ℚ :=
  let m := scoreMap scores
  let acc := CRITERIA_KEYS.foldl
    (fun (acc : ℚ × ℚ) c =>
      (acc.1 + CRITERIA_WEIGHTS c, acc.2 + ((m c).getD 0) * CRITERIA_WEIGHTS c))
    (0, 0)
  if 0 < acc.1 then acc.2 / acc.1 else 0

/-- The `sums`/`counts` accumulation of `computeOverallFromJudgments`
(src/unnamed/part_007 lines 77–98): per-criterion running sum and count
over every score of every judgment. -/
def sumsCounts (js : List JudgmentResult) : (Criterion → ℚ) × (Criterion → ℕ) :=
  js.foldl
    (fun acc j =>
      j.scores.foldl
        (fun a s =>
          (Function.update a.1 s.criterion (a.1 s.criterion + s.score),
           Function.update a.2 s.criterion (a.2 s.criterion + 1)))
        acc)
    (fun _ => 0, fun _ => 0)

/-- The `averaged` record of `computeOverallFromJudgments`
(src/unnamed/part_007 lines 100–106): `counts.x ? sums.x / counts.x : 0`
(JS truthiness = nonzero count). -/
def criterionAverage (js : List JudgmentResult) (c : Criterion) : ℚ :=
  let sc := sumsCounts js
  if sc.2 c ≠ 0 then sc.1 c / (sc.2 c : ℚ) else 0

/-- `computeOverallFromJudgments` (src/unnamed/part_007 lines 73–117):
empty input is 0; otherwise each criterion is averaged across judges and
the weighted formula is applied to the averages, with accumulator
`(totalWeight, weightedSum)` and final value
`totalWeight > 0 ? weightedSum / totalWeight : 0`. -/
def computeOverallFromJudgments (js : List JudgmentResult) : ℚ :=
  if js.isEmpty then 0
  else
    let acc := CRITERIA_KEYS.foldl
      (fun (acc : ℚ × ℚ) c =>
        (acc.1 + CRITERIA_WEIGHTS c, acc.2 + criterionAverage js c * CRITERIA_WEIGHTS c))
      (0, 0)
    if 0 < acc.1 then acc.2 / acc.1 else 0

/-- Modelled from the spec: §4.3 says both aggregation formulas are
"weighted sum divided by sum of weights actually present".  This is the
spec-side formula to compare against `computeOverallFromScores`: only
criteria present in the score set contribute their weight to the
denominator. -/
def presentWeightedOverall (scores : List CriterionScore) : ℚ :=
  let m := scoreMap scores
  let acc := CRITERIA_KEYS.foldl
    (fun (acc : ℚ × ℚ) c =>
      match m c with
      | some v => (acc.1 + CRITERIA_WEIGHTS c, acc.2 + v * CRITERIA_WEIGHTS c)
      | none => acc)
    (0, 0)
  if 0 < acc.1 then acc.2 / acc.1 else 0

/-! ### Lookup lemmas for the score map -/

theorem foldl_update_apply (l : List CriterionScore) (m0 : Criterion → Option ℚ)
    (c : Criterion) :
    l.foldl (fun (m : Criterion → Option ℚ) s => Function.update m s.criterion (some s.score))
        m0 c =
      (l.reverse.find? (fun s => s.criterion == c)).elim (m0 c) (fun s => some s.score) := by
  induction l generalizing m0 with
  | nil => simp
  | cons s t ih =>
      simp only [List.foldl_cons, List.reverse_cons, List.find?_append, ih]
      rcases hfind : t.reverse.find? (fun s => s.criterion == c) with _ | x
      · by_cases hc : s.criterion = c
        · simp [hfind, Function.update_apply, hc]
        · simp [hfind, Function.update_apply, hc, Ne.symm hc]
      · simp [hfind]

theorem scoreMap_apply (l : List CriterionScore) (c : Criterion) :
    scoreMap l c =
      (l.reverse.find? (fun s => s.criterion == c)).elim none (fun s => some s.score) :=
  foldl_update_apply l (fun _ => none) c

theorem find?_eq_of_unique {α : Type _} (l : List α) (p : α → Bool) (x : α)
    (hx : x ∈ l) (hpx : p x = true) (huniq : ∀ y ∈ l, p y = true → y = x) :
    l.find? p = some x := by
  induction l with
  | nil => cases hx
  | cons a t ih =>
      by_cases hpa : p a = true
      · have hax : a = x := huniq a (List.mem_cons_self a t) hpa
        subst hax
        simp [List.find?_cons_of_pos, hpa]
      · rw [List.find?_cons_of_neg t hpa]
        rcases List.mem_cons.mp hx with rfl | hxt
        · exact absurd hpx hpa
        · exact ih hxt fun y hy hpy => huniq y (List.mem_cons_of_mem a hy) hpy

theorem scoreMap_of_unique (scores l : List CriterionScore) (x : CriterionScore)
    (hperm : scores.Perm l) (hx : x ∈ l)
    (huniq : ∀ y ∈ l, y.criterion = x.criterion → y = x) :
    scoreMap scores x.criterion = some x.score := by
  rw [scoreMap_apply]
  rw [find?_eq_of_unique scores.reverse (fun s => s.criterion == x.criterion) x
    (List.mem_reverse.mpr (hperm.mem_iff.mpr hx)) (by simp)
    (fun y hy hpy =>
      huniq y (hperm.mem_iff.mp (List.mem_reverse.mp hy)) (by simpa using hpy))]
  rfl

/-! ### C1: single-judgment weighted overall -/

/-- **C1.** For a single judgment containing exactly one score per rubric
criterion, `computeOverallFromScores` equals the weighted average of the
five criterion scores under the fixed weights narrative=30, structure=20,
audienceFit=20, accuracy=15, aiDetection=15; in particular scores
80, 70, 60, 90, 50 on those criteria give exactly 71. -/
theorem computeOverallFromScores_weighted_average
    (s1 s2 s3 s4 s5 : CriterionScore) (scores : List CriterionScore)
    (h1 : s1.criterion = .narrative) (h2 : s2.criterion = .«structure»)
    (h3 : s3.criterion = .audienceFit) (h4 : s4.criterion = .accuracy)
    (h5 : s5.criterion = .aiDetection)
    (hperm : scores.Perm [s1, s2, s3, s4, s5]) :
    computeOverallFromScores scores =
        (s1.score * 30 + s2.score * 20 + s3.score * 20 + s4.score * 15 + s5.score * 15)
          / 100 ∧
      computeOverallFromScores
        [⟨.narrative, 80, ""⟩, ⟨.«structure», 70, ""⟩, ⟨.audienceFit, 60, ""⟩,
         ⟨.accuracy, 90, ""⟩, ⟨.aiDetection, 50, ""⟩] = 71 := by
  constructor
  · have huniq : ∀ x ∈ [s1, s2, s3, s4, s5], ∀ y ∈ [s1, s2, s3, s4, s5],
        y.criterion = x.criterion → y = x := by
      intro x hx y hy hxy
      fin_cases hx <;> fin_cases hy <;>
        first
          | rfl
          | (simp only [h1, h2, h3, h4, h5] at hxy; cases hxy)
    have e1 : scoreMap scores s1.criterion = some s1.score :=
      scoreMap_of_unique scores _ s1 hperm (by simp)
        (fun y hy hyc => huniq s1 (by simp) y hy hyc)
    have e2 : scoreMap scores s2.criterion = some s2.score :=
      scoreMap_of_unique scores _ s2 hperm (by simp)
        (fun y hy hyc => huniq s2 (by simp) y hy hyc)
    have e3 : scoreMap scores s3.criterion = some s3.score :=
      scoreMap_of_unique scores _ s3 hperm (by simp)
        (fun y hy hyc => huniq s3 (by simp) y hy hyc)
    have e4 : scoreMap scores s4.criterion = some s4.score :=
      scoreMap_of_unique scores _ s4 hperm (by simp)
        (fun y hy hyc => huniq s4 (by simp) y hy hyc)
    have e5 : scoreMap scores s5.criterion = some s5.score :=
      scoreMap_of_unique scores _ s5 hperm (by simp)
        (fun y hy hyc => huniq s5 (by simp) y hy hyc)
    rw [h1] at e1; rw [h2] at e2; rw [h3] at e3; rw [h4] at e4; rw [h5] at e5
    simp only [computeOverallFromScores, CRITERIA_KEYS, CRITERIA_WEIGHTS,
      List.foldl_cons, List.foldl_nil, e1, e2, e3, e4, e5, Option.getD_some]
    norm_num
  · norm_num +decide [computeOverallFromScores, scoreMap, CRITERIA_KEYS,
      CRITERIA_WEIGHTS, Function.update]

/-- Witness for C1: the theorem applied to the concrete five-score judgment
of the spec scenario, in the listed order. -/
theorem computeOverallFromScores_weighted_average_witness :
    computeOverallFromScores
        [⟨.narrative, 80, ""⟩, ⟨.«structure», 70, ""⟩, ⟨.audienceFit, 60, ""⟩,
         ⟨.accuracy, 90, ""⟩, ⟨.aiDetection, 50, ""⟩] =
      ((80 : ℚ) * 30 + 70 * 20 + 60 * 20 + 90 * 15 + 50 * 15) / 100 :=
  (computeOverallFromScores_weighted_average
    ⟨.narrative, 80, ""⟩ ⟨.«structure», 70, ""⟩ ⟨.audienceFit, 60, ""⟩
    ⟨.accuracy, 90, ""⟩ ⟨.aiDetection, 50, ""⟩ _
    rfl rfl rfl rfl rfl (List.Perm.refl _)).1

/-! ### C6: the denominator is the fixed total weight, not the present weight -/

/-- Counterexample for C6: a score set containing only the narrative
criterion (value 100).  The weighted average over the criteria actually
present would be 100 (all weight on narrative), but
`computeOverallFromScores` divides by the fixed total weight 100 and
returns 30, pulling the result toward zero. -/
theorem computeOverall_not_present_normalized :
    computeOverallFromScores [⟨.narrative, 100, "only narrative"⟩] = 30 ∧
      presentWeightedOverall [⟨.narrative, 100, "only narrative"⟩] = 100 ∧
      (30 : ℚ) ≠ 100 := by
  refine ⟨?_, ?_, by norm_num⟩
  · norm_num +decide [computeOverallFromScores, scoreMap, CRITERIA_KEYS,
      CRITERIA_WEIGHTS, Function.update]
  · norm_num +decide [presentWeightedOverall, scoreMap, CRITERIA_KEYS,
      CRITERIA_WEIGHTS, Function.update]

/-- **C6 (amended).** Both aggregation formulas divide by the fixed total
weight of all five rubric criteria (100): a missing criterion contributes
score 0 to the numerator while its weight still counts in the denominator,
so the overall is pulled toward zero rather than being a weighted average
over only the present criteria. -/
theorem computeOverall_fixed_total_weight :
    (∀ scores : List CriterionScore,
        computeOverallFromScores scores =
          ((scoreMap scores .narrative).getD 0 * 30 +
             (scoreMap scores .«structure»).getD 0 * 20 +
             (scoreMap scores .audienceFit).getD 0 * 20 +
             (scoreMap scores .accuracy).getD 0 * 15 +
             (scoreMap scores .aiDetection).getD 0 * 15) / 100) ∧
      (∀ js : List JudgmentResult, js ≠ [] →
        computeOverallFromJudgments js =
          (criterionAverage js .narrative * 30 +
             criterionAverage js .«structure» * 20 +
             criterionAverage js .audienceFit * 20 +
             criterionAverage js .accuracy * 15 +
             criterionAverage js .aiDetection * 15) / 100) := by
  constructor
  · intro scores
    simp only [computeOverallFromScores, CRITERIA_KEYS, CRITERIA_WEIGHTS,
      List.foldl_cons, List.foldl_nil]
    norm_num
  · intro js hjs
    simp only [computeOverallFromJudgments, CRITERIA_KEYS, CRITERIA_WEIGHTS,
      List.foldl_cons, List.foldl_nil, List.isEmpty_eq_true, hjs, if_false]
    norm_num

/-- Witness for C6 (amended): the fixed-denominator forms evaluated at a
one-criterion score list and at a one-judgment list. -/
theorem computeOverall_fixed_total_weight_witness :
    computeOverallFromScores [⟨.narrative, 100, "only narrative"⟩] =
        ((scoreMap [⟨.narrative, 100, "only narrative"⟩] .narrative).getD 0 * 30 +
           (scoreMap [⟨.narrative, 100, "only narrative"⟩] .«structure»).getD 0 * 20 +
           (scoreMap [⟨.narrative, 100, "only narrative"⟩] .audienceFit).getD 0 * 20 +
           (scoreMap [⟨.narrative, 100, "only narrative"⟩] .accuracy).getD 0 * 15 +
           (scoreMap [⟨.narrative, 100, "only narrative"⟩] .aiDetection).getD 0 * 15) / 100 ∧
      computeOverallFromJudgments [⟨"j", "J", "p", [⟨.narrative, 100, "f"⟩], 100, 30, [], 0⟩] =
        (criterionAverage [⟨"j", "J", "p", [⟨.narrative, 100, "f"⟩], 100, 30, [], 0⟩] .narrative * 30 +
           criterionAverage [⟨"j", "J", "p", [⟨.narrative, 100, "f"⟩], 100, 30, [], 0⟩] .«structure» * 20 +
           criterionAverage [⟨"j", "J", "p", [⟨.narrative, 100, "f"⟩], 100, 30, [], 0⟩] .audienceFit * 20 +
           criterionAverage [⟨"j", "J", "p", [⟨.narrative, 100, "f"⟩], 100, 30, [], 0⟩] .accuracy * 15 +
           criterionAverage [⟨"j", "J", "p", [⟨.narrative, 100, "f"⟩], 100, 30, [], 0⟩] .aiDetection * 15) / 100 :=
  ⟨computeOverall_fixed_total_weight.1 [⟨.narrative, 100, "only narrative"⟩],
   computeOverall_fixed_total_weight.2
     [⟨"j", "J", "p", [⟨.narrative, 100, "f"⟩], 100, 30, [], 0⟩]
     (List.cons_ne_nil _ _)⟩

/-! ### Aggregation across judges (`aggregateResults`, src/unnamed/part_007) -/

/-- `ModelConfig.provider` (src/src/types/index.ts). -/
inductive Provider where
  | openrouter
  | anthropic
  deriving DecidableEq, Repr

/-- `ModelConfig` (src/src/types/index.ts). -/
structure ModelConfig where
  provider : Provider
  modelId : String
  friendlyName : String
  deriving DecidableEq, Repr

/-- `WriterResult` (src/src/types/index.ts), `Date` as `Nat`. -/
structure WriterResult where
  modelId : String
  friendlyName : String
  content : String
  generatedAt : Nat
  deriving DecidableEq, Repr

/-- `JudgeFailure` (src/src/types/index.ts), `Date` as `Nat`. -/
structure JudgeFailure where
  judgeModelId : String
  judgeFriendlyName : String
  postModelId : String
  postFriendlyName : String
  error : String
  failedAt : Nat
  deriving DecidableEq, Repr

/-- `AggregatedResult` (src/src/types/index.ts); the
`Record<keyof JudgingCriteria, number>` of per-criterion averages is
embedded as a function. -/
structure AggregatedResult where
  postModelId : String
  postFriendlyName : String
  averageScores : Criterion → ℚ
  overallAverage : ℚ
  judgments : List JudgmentResult

/-- The `judgmentsByPost` grouping of `aggregateResults`
(src/unnamed/part_007 lines 414–420): the JS `Map` of arrays appends each
judgment, in input order, to the bucket of its `postModelId`, so the
bucket read for a post is exactly the input-order sublist of judgments
with that `postModelId`. -/
def judgmentsFor (judgments : List JudgmentResult) (postId : String) : List JudgmentResult :=
  judgments.filter fun j => j.postModelId == postId

/-- The per-criterion `total`/`count` accumulation of `aggregateResults`
(src/unnamed/part_007 lines 435–444): each judgment contributes the first
of its scores matching the criterion (`scores.find`), if any. -/
def criterionTotalCount (group : List JudgmentResult) (c : Criterion) : ℚ × ℕ :=
  group.foldl
    (fun acc j =>
      match j.scores.find? (fun s => s.criterion == c) with
      | some s => (acc.1 + s.score, acc.2 + 1)
      | none => acc)
    (0, 0)

/-- The `averageScores` record of `aggregateResults`
(src/unnamed/part_007 lines 425–448): zeros when the post has no
judgments, otherwise `count > 0 ? total / count : 0` per criterion. -/
def averageScoresFor (group : List JudgmentResult) : Criterion → ℚ := fun c =>
  if 0 < group.length then
    let tc := criterionTotalCount group c
    if 0 < tc.2 then tc.1 / (tc.2 : ℚ) else 0
  else 0

/-- The per-post body of `aggregateResults` (src/unnamed/part_007
lines 422–468): per-criterion averages, then the weighted overall with
accumulator `(totalWeight, overallAverage)`. -/
def aggregateOne (judgments : List JudgmentResult) (post : WriterResult) : AggregatedResult :=
  let postJudgments := judgmentsFor judgments post.modelId
  let avg := averageScoresFor postJudgments
  let acc := CRITERIA_KEYS.foldl
    (fun (acc : ℚ × ℚ) c =>
      (acc.1 + CRITERIA_WEIGHTS c, acc.2 + avg c * CRITERIA_WEIGHTS c))
    (0, 0)
  { postModelId := post.modelId
    postFriendlyName := post.friendlyName
    averageScores := avg
    overallAverage := if 0 < acc.1 then acc.2 / acc.1 else 0
    judgments := postJudgments }

/-- One step of the stable descending sort on `overallAverage`: insert
after every element with an `overallAverage` that is ≥. -/
def insertDesc (r : AggregatedResult) : List AggregatedResult → List AggregatedResult
  | [] => [r]
  | s :: t =>
      if s.overallAverage < r.overallAverage then r :: s :: t else s :: insertDesc r t

/-- `results.sort((a, b) => b.overallAverage - a.overallAverage)`
(src/unnamed/part_007 line 470): ECMAScript `Array.prototype.sort` is
stable, and this comparator orders by descending `overallAverage`;
embedded as a stable insertion sort, which computes the same list. -/
def sortByOverallDesc (l : List AggregatedResult) : List AggregatedResult :=
  l.foldl (fun acc r => insertDesc r acc) []

/-- `aggregateResults` (src/unnamed/part_007 lines 413–472). -/
def aggregateResults (posts : List WriterResult) (judgments : List JudgmentResult) :
    List AggregatedResult :=
  sortByOverallDesc (posts.map (aggregateOne judgments))

/-- `determineWinner` (src/unnamed/part_007 lines 478–481). -/
def determineWinner (results : List AggregatedResult) : Option AggregatedResult :=
  if results.isEmpty then none else results.head?

/-! ### C2: aggregation is order-independent -/

/-- Agreement of two aggregated rows on everything except the
order-sensitive raw `judgments` list. -/
def aggEquiv (r s : AggregatedResult) : Prop :=
  r.postModelId = s.postModelId ∧ r.postFriendlyName = s.postFriendlyName ∧
    r.averageScores = s.averageScores ∧ r.overallAverage = s.overallAverage

theorem criterionTotalCount_eq_filterMap (group : List JudgmentResult) (c : Criterion) :
    criterionTotalCount group c =
      (((group.filterMap fun j => j.scores.find? fun s => s.criterion == c).map
          CriterionScore.score).sum,
        (group.filterMap fun j => j.scores.find? fun s => s.criterion == c).length) := by
  suffices h : ∀ (a : ℚ) (n : ℕ),
      group.foldl
        (fun acc j =>
          match j.scores.find? (fun s => s.criterion == c) with
          | some s => (acc.1 + s.score, acc.2 + 1)
          | none => acc)
        (a, n) =
      (a + ((group.filterMap fun j => j.scores.find? fun s => s.criterion == c).map
          CriterionScore.score).sum,
        n + (group.filterMap fun j => j.scores.find? fun s => s.criterion == c).length) by
    simpa using h 0 0
  induction group with
  | nil => intro a n; simp
  | cons j t ih =>
      intro a n
      rcases hfind : j.scores.find? (fun s => s.criterion == c) with _ | s
      · simp only [List.foldl_cons, hfind, List.filterMap_cons, ih]
      · simp only [List.foldl_cons, hfind, List.filterMap_cons, ih, List.map_cons,
          List.sum_cons, List.length_cons, Prod.mk.injEq]
        exact ⟨by ring, by omega⟩

theorem criterionTotalCount_perm {g₁ g₂ : List JudgmentResult} (h : g₁.Perm g₂)
    (c : Criterion) : criterionTotalCount g₁ c = criterionTotalCount g₂ c := by
  rw [criterionTotalCount_eq_filterMap, criterionTotalCount_eq_filterMap]
  have hp := (h.filterMap fun j => j.scores.find? fun s => s.criterion == c)
  rw [(hp.map CriterionScore.score).sum_eq, hp.length_eq]

theorem averageScoresFor_perm {g₁ g₂ : List JudgmentResult} (h : g₁.Perm g₂) :
    averageScoresFor g₁ = averageScoresFor g₂ := by
  funext c
  simp only [averageScoresFor, h.length_eq, criterionTotalCount_perm h c]

theorem aggregateOne_perm {js js' : List JudgmentResult} (h : js.Perm js')
    (post : WriterResult) : aggEquiv (aggregateOne js post) (aggregateOne js' post) := by
  have hgroup : (judgmentsFor js post.modelId).Perm (judgmentsFor js' post.modelId) :=
    h.filter _
  have havg : averageScoresFor (judgmentsFor js post.modelId) =
      averageScoresFor (judgmentsFor js' post.modelId) := averageScoresFor_perm hgroup
  refine ⟨rfl, rfl, ?_, ?_⟩ <;> simp only [aggregateOne, havg]

theorem insertDesc_forall₂ {r s : AggregatedResult} {l l' : List AggregatedResult}
    (hr : aggEquiv r s) (hl : List.Forall₂ aggEquiv l l') :
    List.Forall₂ aggEquiv (insertDesc r l) (insertDesc s l') := by
  induction hl with
  | nil => exact List.Forall₂.cons hr List.Forall₂.nil
  | cons hxy htail ih =>
      simp only [insertDesc, hxy.2.2.2, hr.2.2.2]
      split
      · exact List.Forall₂.cons hr (List.Forall₂.cons hxy htail)
      · exact List.Forall₂.cons hxy ih

theorem sortByOverallDesc_forall₂ {l l' : List AggregatedResult}
    (hl : List.Forall₂ aggEquiv l l') :
    List.Forall₂ aggEquiv (sortByOverallDesc l) (sortByOverallDesc l') := by
  suffices h : ∀ acc acc', List.Forall₂ aggEquiv acc acc' →
      List.Forall₂ aggEquiv (l.foldl (fun acc r => insertDesc r acc) acc)
        (l'.foldl (fun acc r => insertDesc r acc) acc') from
    h [] [] List.Forall₂.nil
  induction hl with
  | nil => intro acc acc' hacc; exact hacc
  | cons hxy htail ih =>
      intro acc acc' hacc
      exact ih _ _ (insertDesc_forall₂ hxy hacc)

theorem findIdx_eq_of_forall₂ {l l' : List AggregatedResult}
    (hl : List.Forall₂ aggEquiv l l') (pid : String) :
    l.findIdx (fun r => r.postModelId == pid) =
      l'.findIdx (fun r => r.postModelId == pid) := by
  induction hl with
  | nil => rfl
  | cons hxy htail ih =>
      simp only [List.findIdx_cons, hxy.1, ih]

theorem insertDesc_perm (r : AggregatedResult) (l : List AggregatedResult) :
    (insertDesc r l).Perm (r :: l) := by
  induction l with
  | nil => exact List.Perm.refl _
  | cons s t ih =>
      simp only [insertDesc]
      split
      · exact List.Perm.refl _
      · exact (List.Perm.cons s ih).trans (List.Perm.swap r s t)

theorem sortByOverallDesc_perm (l : List AggregatedResult) :
    (sortByOverallDesc l).Perm l := by
  suffices h : ∀ acc, (l.foldl (fun acc r => insertDesc r acc) acc).Perm (acc ++ l) by
    simpa using h []
  induction l with
  | nil => intro acc; simp
  | cons x t ih =>
      intro acc
      refine (ih (insertDesc x acc)).trans ?_
      have h1 : (insertDesc x acc ++ t).Perm ((x :: acc) ++ t) :=
        (insertDesc_perm x acc).append_right t
      refine h1.trans ?_
      simpa using List.perm_middle.symm

/-- **C2.** `aggregateResults` first averages each criterion across a
subject's judgments and then applies the weighted-average formula to those
per-criterion averages, and it is order-independent: permuting the input
judgment sequence leaves every row's identity, per-criterion averages and
overall average unchanged (position by position in the descending-sorted
output), hence every subject's computed overall and rank are unchanged. -/
theorem aggregateResults_order_independent
    (posts : List WriterResult) (js js' : List JudgmentResult) (hperm : js.Perm js') :
    List.Forall₂ aggEquiv (aggregateResults posts js) (aggregateResults posts js') ∧
      (∀ pid : String,
        (aggregateResults posts js).findIdx (fun r => r.postModelId == pid) =
          (aggregateResults posts js').findIdx (fun r => r.postModelId == pid)) ∧
      (∀ r ∈ aggregateResults posts js,
        r.overallAverage =
          (r.averageScores .narrative * 30 + r.averageScores .«structure» * 20 +
             r.averageScores .audienceFit * 20 + r.averageScores .accuracy * 15 +
             r.averageScores .aiDetection * 15) / 100) := by
  have hmap : List.Forall₂ aggEquiv (posts.map (aggregateOne js))
      (posts.map (aggregateOne js')) := by
    induction posts with
    | nil => exact List.Forall₂.nil
    | cons p t ih => exact List.Forall₂.cons (aggregateOne_perm hperm p) ih
  have hsorted := sortByOverallDesc_forall₂ hmap
  refine ⟨hsorted, fun pid => findIdx_eq_of_forall₂ hsorted pid, ?_⟩
  intro r hr
  have hr' : r ∈ posts.map (aggregateOne js) :=
    ((sortByOverallDesc_perm (posts.map (aggregateOne js))).mem_iff).mp hr
  rcases List.mem_map.mp hr' with ⟨p, _, rfl⟩
  simp only [aggregateOne, CRITERIA_KEYS, CRITERIA_WEIGHTS, List.foldl_cons,
    List.foldl_nil]
  norm_num

/-- Witness for C2: a two-judgment wave for one post, permuted by a swap. -/
theorem aggregateResults_order_independent_witness :
    List.Forall₂ aggEquiv
      (aggregateResults [⟨"p", "P", "text", 0⟩]
        [⟨"j1", "J1", "p", [⟨.narrative, 80, "a"⟩], 80, 80, [], 0⟩,
         ⟨"j2", "J2", "p", [⟨.narrative, 60, "b"⟩], 60, 60, [], 0⟩])
      (aggregateResults [⟨"p", "P", "text", 0⟩]
        [⟨"j2", "J2", "p", [⟨.narrative, 60, "b"⟩], 60, 60, [], 0⟩,
         ⟨"j1", "J1", "p", [⟨.narrative, 80, "a"⟩], 80, 80, [], 0⟩]) :=
  (aggregateResults_order_independent [⟨"p", "P", "text", 0⟩]
    [⟨"j1", "J1", "p", [⟨.narrative, 80, "a"⟩], 80, 80, [], 0⟩,
     ⟨"j2", "J2", "p", [⟨.narrative, 60, "b"⟩], 60, 60, [], 0⟩]
    [⟨"j2", "J2", "p", [⟨.narrative, 60, "b"⟩], 60, 60, [], 0⟩,
     ⟨"j1", "J1", "p", [⟨.narrative, 80, "a"⟩], 80, 80, [], 0⟩]
    (List.Perm.swap _ _ _)).1

/-! ### C9: the `pLimit` concurrency ceiling check (src/src/types/index.ts 578–603) -/

/-- A JavaScript `number` as far as the `pLimit` validity check can
distinguish it: a finite rational, `NaN`, or an infinity. -/
inductive JSNum where
  | finite (q : ℚ)
  | nan
  | posInf
  | negInf
  deriving DecidableEq, Repr

/-- `Number.isFinite`. -/
def jsIsFinite : JSNum → Bool
  | .finite _ => true
  | _ => false

/-- The JS comparison `c < 1` (`NaN < 1` and `Infinity < 1` are false,
`-Infinity < 1` is true). -/
def jsLtOne : JSNum → Bool
  | .finite q => decide (q < 1)
  | .nan => false
  | .posInf => false
  | .negInf => true

/-- `!Number.isFinite(concurrency) || concurrency < 1`
(src/src/types/index.ts line 579): the only condition under which
`pLimit` throws. -/
def pLimitThrows (c : JSNum) : Bool :=
  !jsIsFinite c || jsLtOne c

/-- The closure state of `pLimit` (src/src/types/index.ts lines 583–584):
`activeCount` and the FIFO `queue` of pending runs (tasks as opaque ids). -/
structure LimiterState where
  activeCount : ℕ
  queue : List ℕ
  deriving DecidableEq, Repr

/-- `pLimit(concurrency)` (src/src/types/index.ts lines 578–603): throws
(`.error`) exactly when the guard fires, otherwise returns the initial
limiter state. -/
def pLimitInit (concurrency : JSNum) : Except String LimiterState :=
  if pLimitThrows concurrency then .error "Invalid concurrency"
  else .ok ⟨0, []⟩

/-- The body of the returned `limit` function at submission time
(src/src/types/index.ts lines 592–602): run immediately when below the
ceiling, else enqueue (FIFO).  The body contains no `throw`; the `Except`
wrapper records that no error path exists, so the result is always `.ok`. -/
def limitSubmit (concurrency : ℚ) (s : LimiterState) (task : ℕ) :
    Except String LimiterState :=
  .ok
    (if (s.activeCount : ℚ) < concurrency then
      { s with activeCount := s.activeCount + 1 }
    else
      { s with queue := s.queue ++ [task] })

/-- `next()` (src/src/types/index.ts lines 586–590): decrement the active
count, then shift and run the next queued task, if any (running it
re-increments the active count). -/
def limitNext (s : LimiterState) : LimiterState :=
  let a := s.activeCount - 1
  match s.queue with
  | [] => ⟨a, []⟩
  | _ :: rest => ⟨a + 1, rest⟩

/-- Counterexample for C9: `concurrency = 3/2` is not a positive integer
(its reduced denominator is 2, not 1), yet `pLimit` accepts it — the
guard only rejects non-finite values and values `< 1`. -/
theorem pLimit_accepts_noninteger_ceiling :
    pLimitInit (.finite (3 / 2)) = .ok ⟨0, []⟩ ∧ ((3 : ℚ) / 2).den ≠ 1 := by
  constructor
  · simp only [pLimitInit, pLimitThrows, jsIsFinite, jsLtOne, Bool.not_true,
      Bool.false_or]
    norm_num
  · norm_num

/-- **C9 (amended).** `pLimit` reports a configuration error at
construction exactly when the ceiling is not a finite number ≥ 1
(non-integer ceilings ≥ 1 are accepted), and no ceiling-validity error is
ever raised at task-submission time (`limitSubmit` always succeeds). -/
theorem pLimit_validation_at_construction :
    (∀ c : JSNum, (∃ e, pLimitInit c = .error e) ↔
        (jsIsFinite c = false ∨ ∃ q, c = .finite q ∧ q < 1)) ∧
      (∀ (c : ℚ) (s : LimiterState) (task : ℕ),
        ∃ s', limitSubmit c s task = .ok s') := by
  constructor
  · intro c
    cases c with
    | finite q =>
        by_cases hq : q < 1 <;>
          simp [pLimitInit, pLimitThrows, jsIsFinite, jsLtOne, hq]
    | nan => simp [pLimitInit, pLimitThrows, jsIsFinite, jsLtOne]
    | posInf => simp [pLimitInit, pLimitThrows, jsIsFinite, jsLtOne]
    | negInf => simp [pLimitInit, pLimitThrows, jsIsFinite, jsLtOne]
  · intro c s task
    exact ⟨_, rfl⟩

/-- Witness for C9 (amended): at ceiling 5 the constructor succeeds (the
error characterization rules an error out), and a submission at a
saturated state succeeds. -/
theorem pLimit_validation_at_construction_witness :
    ¬(∃ e, pLimitInit (.finite 5) = .error e) ∧
      ∃ s', limitSubmit 5 ⟨5, []⟩ 0 = .ok s' := by
  constructor
  · intro h
    rcases (pLimit_validation_at_construction.1 (.finite 5)).mp h with h' | ⟨q, hq, hlt⟩
    · simp [jsIsFinite] at h'
    · cases hq
      norm_num at hlt
  · exact pLimit_validation_at_construction.2 5 ⟨5, []⟩ 0

/-! ### C3: the repair round-trip and multi-judge failure isolation
(src/unnamed/part_007 lines 279–350)

`judgePost` makes external `generate` calls; the embedding passes the
evaluator's two possible responses (`r1` for the initial request, `r2` for
the repair request) as oracle data of an abstract response type `R`, and
abstracts `parseJudgmentResponse` as a `parse` function.  The second
component of the result counts the `generate` calls actually made
(1 = no repair, 2 = exactly one repair round-trip). -/

/-- `judgePost` (src/unnamed/part_007 lines 279–299): parse the first
response; on a validation error, make exactly one repair request, re-parse
it, tag a repaired judgment with the `Repaired invalid judge output`
warning, and let a second failure escape. -/
def judgePostModel {R : Type _} (parse : R → Except String JudgmentResult)
    (r1 r2 : R) : Except String JudgmentResult × ℕ :=
  match parse r1 with
  | .ok j => (.ok j, 1)
  | .error _ =>
      match parse r2 with
      | .ok j =>
          (.ok { j with parseWarnings := j.parseWarnings ++ ["Repaired invalid judge output"] },
            2)
      | .error e => (.error e, 2)

/-- One evaluator's task in a multi-judge wave: its model configuration
and the two responses its `generate` calls would return. -/
structure JudgeTask (R : Type _) where
  judge : ModelConfig
  r1 : R
  r2 : R

/-- The task body of `judgePostWithMultipleJudges` (src/unnamed/part_007
lines 316–338): run `judgePost` for one judge and catch its error into a
`JudgeFailure` record (`failedAt`, a `new Date()`, embedded as 0). -/
def judgeTaskOutcome {R : Type _} (parse : R → Except String JudgmentResult)
    (post : WriterResult) (t : JudgeTask R) : JudgmentResult ⊕ JudgeFailure :=
  match judgePostModel parse t.r1 t.r2 with
  | (.ok j, _) => Sum.inl j
  | (.error e, _) =>
      Sum.inr
        { judgeModelId := t.judge.modelId
          judgeFriendlyName := t.judge.friendlyName
          postModelId := post.modelId
          postFriendlyName := post.friendlyName
          error := e
          failedAt := 0 }

/-- `judgePostWithMultipleJudges` (src/unnamed/part_007 lines 309–350):
every judge's task runs `judgePost` with its error caught; `Promise.all`
collects outcomes in task order (`pLimit` schedules but never reorders
the result array), and the final loop partitions them into `judgments`
and `failures`. -/
def judgePostWithMultipleJudgesModel {R : Type _}
    (parse : R → Except String JudgmentResult) (post : WriterResult)
    (tasks : List (JudgeTask R)) : List JudgmentResult × List JudgeFailure :=
  let results := tasks.map (judgeTaskOutcome parse post)
  (results.filterMap fun r => match r with | .inl j => some j | .inr _ => none,
   results.filterMap fun r => match r with | .inr f => some f | .inl _ => none)

/-- `true` exactly on the error constructor. -/
def exceptFailed {α : Type _} : Except String α → Bool
  | .error _ => true
  | .ok _ => false

/-- **C3.** Per evaluator/subject pair the repair round-trip happens at
most once: `judgePost` makes at most two `generate` calls; a valid first
response means no repair; after an invalid first response exactly one
repair request is sent and its re-parse decides the outcome, a second
invalid response failing with that error.  In the multi-judge wave the
failed pair surfaces as exactly one `EvaluationFailure` record, the wave
itself never raises, and sibling evaluators' judgments are all returned. -/
theorem judgePost_repair_at_most_once {R : Type _}
    (parse : R → Except String JudgmentResult) :
    (∀ r1 r2 : R, (judgePostModel parse r1 r2).2 ≤ 2) ∧
      (∀ (r1 r2 : R) (j : JudgmentResult), parse r1 = .ok j →
        judgePostModel parse r1 r2 = (.ok j, 1)) ∧
      (∀ (r1 r2 : R) (e1 e2 : String), parse r1 = .error e1 → parse r2 = .error e2 →
        judgePostModel parse r1 r2 = (.error e2, 2)) ∧
      (∀ (post : WriterResult) (tasks : List (JudgeTask R)),
        (judgePostWithMultipleJudgesModel parse post tasks).1 =
            tasks.filterMap (fun t => ((judgePostModel parse t.r1 t.r2).1).toOption) ∧
          (judgePostWithMultipleJudgesModel parse post tasks).2.length =
            (tasks.filter fun t => exceptFailed (judgePostModel parse t.r1 t.r2).1).length) := by
  refine ⟨?_, ?_, ?_, ?_⟩
  · intro r1 r2
    unfold judgePostModel
    rcases parse r1 with _ | j
    · rcases parse r2 with _ | j' <;> simp
    · simp
  · intro r1 r2 j h
    unfold judgePostModel
    rw [h]
  · intro r1 r2 e1 e2 h1 h2
    unfold judgePostModel
    rw [h1, h2]
  · intro post tasks
    induction tasks with
    | nil => exact ⟨rfl, rfl⟩
    | cons t rest ih =>
        rcases hout : judgePostModel parse t.r1 t.r2 with ⟨out, n⟩
        constructor
        · simp only [judgePostWithMultipleJudgesModel, List.map_cons,
            List.filterMap_cons, judgeTaskOutcome, hout] at ih ⊢
          rcases out with e | j <;>
            simp only [hout, Except.toOption] <;> simpa using ih.1
        · simp only [judgePostWithMultipleJudgesModel, List.map_cons,
            List.filterMap_cons, List.filter_cons, judgeTaskOutcome, hout] at ih ⊢
          rcases out with e | j <;>
            simp only [hout, exceptFailed] <;> simpa using ih.2

/-- Witness for C3: a two-judge wave over `Bool` responses in which judge
`g` parses fine at once and judge `b` fails both the initial and the
repair parse: exactly one failure, one generate call for `g`,
a `(.error, 2)` outcome for `b`, and `g`'s judgment still returned. -/
theorem judgePost_repair_at_most_once_witness :
    ((judgePostModel (fun b : Bool =>
        if b then .ok (⟨"g", "G", "p", [], 50, 50, [], 0⟩ : JudgmentResult)
        else .error "bad") true true).2 ≤ 2) ∧
      judgePostModel (fun b : Bool =>
          if b then .ok (⟨"g", "G", "p", [], 50, 50, [], 0⟩ : JudgmentResult)
          else .error "bad") true false =
        (.ok (⟨"g", "G", "p", [], 50, 50, [], 0⟩ : JudgmentResult), 1) ∧
      judgePostModel (fun b : Bool =>
          if b then .ok (⟨"g", "G", "p", [], 50, 50, [], 0⟩ : JudgmentResult)
          else .error "bad") false false =
        (.error "bad", 2) := by
  have h := judgePost_repair_at_most_once (fun b : Bool =>
    if b then .ok (⟨"g", "G", "p", [], 50, 50, [], 0⟩ : JudgmentResult)
    else .error "bad")
  exact ⟨h.1 true true, h.2.1 true false _ rfl, h.2.2.1 false false "bad" "bad" rfl rfl⟩

/-! ### The flywheel (src/src/core/flywheel.ts, second revision, lines 265–551)

`runFlywheel` makes two kinds of external calls per iteration: the judge
wave (`judgePostWithMultipleJudges`) and, when continuing, the writer call
(`refinePost`).  The embedding supplies both as an oracle indexed by the
1-based iteration number; the feedback string passed to `refinePost` is
synthesized deterministically from the same iteration's judgments, so an
oracle of the iteration index and current draft subsumes it. -/

/-- `FlywheelIteration` (src/src/types/index.ts); the optional
`averageScoreJudgeReported` is always set by this revision of
`runFlywheel`, so it is a plain field. -/
structure FlywheelIteration where
  iteration : ℕ
  post : WriterResult
  judgments : List JudgmentResult
  judgeFailures : List JudgeFailure
  averageScore : ℚ
  averageScoreJudgeReported : ℚ
  deriving DecidableEq, Repr

/-- `FlywheelSession['stoppedReason']`. -/
inductive StopReason where
  | threshold
  | max_iterations
  | no_improvement
  deriving DecidableEq, Repr

/-- `FlywheelSession` (src/src/types/index.ts); the timestamp-based `id`
is embedded as a fixed string. -/
structure FlywheelSession where
  id : String
  originalPost : String
  writerModel : ModelConfig
  iterations : List FlywheelIteration
  finalPost : Option WriterResult
  finalScore : ℚ
  bestScore : ℚ
  bestIteration : ℕ
  stoppedReason : StopReason
  deriving DecidableEq, Repr

/-- The external world of one flywheel run: for each 1-based iteration
index and current draft, the judge wave's outcome and the refined draft
the writer model would return. -/
structure FlywheelOracle where
  judge : ℕ → String → List JudgmentResult × List JudgeFailure
  refine : ℕ → String → String

/-- The best-tracking update of one iteration (src/src/core/flywheel.ts
lines 491–498): `bestScore`/`bestIteration` change only when the score
strictly exceeds `bestScore + minImprovement`. -/
def bestStep (minImprovement : ℚ) (b : ℚ × ℕ) (it : FlywheelIteration) : ℚ × ℕ :=
  if b.1 + minImprovement < it.averageScore then (it.averageScore, it.iteration) else b

/-- The `for` loop of `runFlywheel` (src/src/core/flywheel.ts
lines 464–514), recursing over the list of remaining iteration indices
(`[1, …, maxIterations]` at the top call).  Per iteration: judge the
current draft, compute the locally-weighted average score and the
diagnostic judge-reported average, append the iteration, update the best
pair and the non-improving counter, then check the stop conditions in
order (threshold, then patience, then the iteration ceiling), refining
the draft only when continuing.  `new Date()` timestamps are embedded
as 0. -/
def runFlywheelLoop (oracle : FlywheelOracle) (wm : ModelConfig) (maxIterations : ℕ)
    (threshold minImprovement : ℚ) (patience : ℕ) :
    List ℕ → String → List FlywheelIteration → ℚ × ℕ → ℕ →
      List FlywheelIteration × (ℚ × ℕ) × StopReason
  | [], _, acc, best, _ => (acc, best, .max_iterations)
  | i :: rest, currentPost, acc, best, nonImp =>
      let postResult : WriterResult := ⟨wm.modelId, wm.friendlyName, currentPost, 0⟩
      let judged := oracle.judge i currentPost
      let averageScore := computeOverallFromJudgments judged.1
      let averageScoreJudgeReported :=
        if judged.1.length = 0 then 0
        else (judged.1.map fun j => j.overallScore).sum / (judged.1.length : ℚ)
      let iter : FlywheelIteration :=
        ⟨i, postResult, judged.1, judged.2, averageScore, averageScoreJudgeReported⟩
      let acc' := acc ++ [iter]
      let best' := bestStep minImprovement best iter
      let nonImp' := if best.1 + minImprovement < averageScore then 0 else nonImp + 1
      if threshold ≤ averageScore then (acc', best', .threshold)
      else if 0 < patience ∧ patience ≤ nonImp' then (acc', best', .no_improvement)
      else if i < maxIterations then
        runFlywheelLoop oracle wm maxIterations threshold minImprovement patience
          rest (oracle.refine i currentPost) acc' best' nonImp'
      else (acc', best', .max_iterations)

/-- `runFlywheel` (src/src/core/flywheel.ts lines 440–551): run the loop
over iterations `1, …, maxIterations`, then apply the fallback (if no
iteration ever improved, the best pair becomes the last iteration's score
and index), select the final iteration by the keep-best policy
(`find` by `bestIteration`, defaulting to the last iteration), and build
the session. -/
def runFlywheelModel (oracle : FlywheelOracle) (initialPost : String) (wm : ModelConfig)
    (maxIterations : ℕ) (threshold : ℚ) (keepBest : Bool) (minImprovement : ℚ)
    (patience : ℕ) : FlywheelSession :=
  let r := runFlywheelLoop oracle wm maxIterations threshold minImprovement patience
    (List.range' 1 maxIterations) initialPost [] (0, 0) 0
  let iterations := r.1
  let best :=
    match iterations.getLast? with
    | some last => if r.2.1.2 = 0 then (last.averageScore, last.iteration) else r.2.1
    | none => r.2.1
  let chosen? :=
    if keepBest ∧ 0 < best.2 then
      match iterations.find? fun it => it.iteration == best.2 with
      | some it => some it
      | none => iterations.getLast?
    else iterations.getLast?
  { id := "flywheel-session"
    originalPost := initialPost
    writerModel := wm
    iterations := iterations
    finalPost := chosen?.map fun it =>
      ⟨wm.modelId, wm.friendlyName, it.post.content, it.post.generatedAt⟩
    finalScore := match chosen? with | some it => it.averageScore | none => 0
    bestScore := best.1
    bestIteration := best.2
    stoppedReason := r.2.2 }

/-- Characterization of the flywheel loop: it appends a non-empty batch of
iterations (one per executed index), and its best pair is the
`bestStep` fold of the starting best pair over exactly the appended
iterations — i.e. the best pair is updated only on strict improvement
beyond `minImprovement`, whatever stop condition ends the loop. -/
theorem runFlywheelLoop_spec (oracle : FlywheelOracle) (wm : ModelConfig)
    (maxIterations : ℕ) (threshold minImprovement : ℚ) (patience : ℕ) :
    ∀ (idxs : List ℕ) (post : String) (acc : List FlywheelIteration)
      (b : ℚ × ℕ) (ni : ℕ),
      ∃ newIts : List FlywheelIteration,
        (runFlywheelLoop oracle wm maxIterations threshold minImprovement patience
            idxs post acc b ni).1 = acc ++ newIts ∧
          (runFlywheelLoop oracle wm maxIterations threshold minImprovement patience
              idxs post acc b ni).2.1 = newIts.foldl (bestStep minImprovement) b ∧
          (idxs ≠ [] → newIts ≠ []) ∧
          (∀ it ∈ newIts, it.iteration ∈ idxs) := by
  intro idxs
  induction idxs with
  | nil =>
      intro post acc b ni
      exact ⟨[], by simp [runFlywheelLoop], by simp [runFlywheelLoop], by simp,
        by simp⟩
  | cons i rest ih =>
      intro post acc b ni
      simp only [runFlywheelLoop]
      set A := computeOverallFromJudgments (oracle.judge i post).1 with hA
      set R : FlywheelIteration :=
        ⟨i, ⟨wm.modelId, wm.friendlyName, post, 0⟩, (oracle.judge i post).1,
          (oracle.judge i post).2, A,
          if (oracle.judge i post).1.length = 0 then 0
          else ((oracle.judge i post).1.map fun j => j.overallScore).sum /
            ((oracle.judge i post).1.length : ℚ)⟩ with hR
      by_cases h1 : threshold ≤ A
      · rw [if_pos h1]
        refine ⟨[R], rfl, rfl, fun _ => List.cons_ne_nil _ _, ?_⟩
        intro it hit
        have hit' : it = R := by simpa using hit
        subst hit'
        simp [hR]
      · rw [if_neg h1]
        by_cases h2 : 0 < patience ∧
            patience ≤ (if b.1 + minImprovement < A then 0 else ni + 1)
        · rw [if_pos h2]
          refine ⟨[R], rfl, rfl, fun _ => List.cons_ne_nil _ _, ?_⟩
          intro it hit
          have hit' : it = R := by simpa using hit
          subst hit'
          simp [hR]
        · rw [if_neg h2]
          by_cases h3 : i < maxIterations
          · rw [if_pos h3]
            obtain ⟨newIts, hacc, hbest, hne, hmem⟩ := ih (oracle.refine i post)
              (acc ++ [R]) (bestStep minImprovement b R)
              (if b.1 + minImprovement < A then 0 else ni + 1)
            refine ⟨R :: newIts, ?_, ?_, fun _ => List.cons_ne_nil _ _, ?_⟩
            · rw [hacc]
              simp
            · rw [hbest]
              rfl
            · intro it hit
              rcases List.mem_cons.mp hit with rfl | hit
              · simp [hR]
              · exact List.mem_cons_of_mem i (hmem it hit)
          · rw [if_neg h3]
            refine ⟨[R], rfl, rfl, fun _ => List.cons_ne_nil _ _, ?_⟩
            intro it hit
            have hit' : it = R := by simpa using hit
            subst hit'
            simp [hR]

/-- The `bestStep` fold either leaves the starting pair untouched (no
iteration strictly improved) or returns the score/index pair of one of
the folded iterations. -/
theorem foldl_bestStep_cases (minImprovement : ℚ) :
    ∀ (l : List FlywheelIteration) (b : ℚ × ℕ),
      l.foldl (bestStep minImprovement) b = b ∨
        ∃ it ∈ l, l.foldl (bestStep minImprovement) b = (it.averageScore, it.iteration) := by
  intro l
  induction l with
  | nil => intro b; left; rfl
  | cons x t ih =>
      intro b
      simp only [List.foldl_cons]
      rcases ih (bestStep minImprovement b x) with h | ⟨it, hmem, h⟩
      · rw [h]
        unfold bestStep
        split
        · right
          exact ⟨x, List.mem_cons_self x t, rfl⟩
        · left
          rfl
      · right
        exact ⟨it, List.mem_cons_of_mem x hmem, h⟩

/-- A full five-criterion score set with a uniform value, used to build
concrete judge waves for the flywheel scenario. -/
def fullScores (v : ℚ) : List CriterionScore :=
  [⟨.narrative, v, "fb"⟩, ⟨.«structure», v, "fb"⟩, ⟨.audienceFit, v, "fb"⟩,
   ⟨.accuracy, v, "fb"⟩, ⟨.aiDetection, v, "fb"⟩]

/-- A judgment whose five criterion scores are all `v`. -/
def mkJudgment (v : ℚ) : JudgmentResult :=
  ⟨"judge-model", "Judge", "post-model", fullScores v, v, v, [], 0⟩

/-- A uniform judgment aggregates to exactly its uniform value. -/
theorem computeOverallFromJudgments_mkJudgment (v : ℚ) :
    computeOverallFromJudgments [mkJudgment v] = v := by
  norm_num +decide [computeOverallFromJudgments, criterionAverage, sumsCounts,
    mkJudgment, fullScores, CRITERIA_KEYS, CRITERIA_WEIGHTS, Function.update]
  ring

/-- The writer model of the C5 scenario. -/
def scenarioModel : ModelConfig := ⟨.openrouter, "writer-model", "Writer"⟩

/-- The C5 scenario's oracle: iterations 1–4 score 60, 75, 68, 70 (one
uniform judgment each); refinement returns the draft unchanged. -/
def scenarioOracle : FlywheelOracle :=
  ⟨fun i _ =>
    ([mkJudgment (if i = 1 then 60 else if i = 2 then 75 else if i = 3 then 68 else 70)], []),
   fun _ post => post⟩

/-- **C5.** Final output selection is policy-controlled: with keep-best
disabled the session's `finalPost`/`finalScore` come from the last
executed iteration regardless of score; with keep-best enabled they come
from an iteration whose index is the recorded `bestIteration`.  In the
four-iteration scenario scoring 60, 75, 68, 70 (minImprovement 0,
threshold 90 never reached), keep-best disabled yields finalScore 70 and
keep-best enabled yields finalScore 75 with bestIteration 2. -/
theorem runFlywheel_final_selection
    (oracle : FlywheelOracle) (initialPost : String) (wm : ModelConfig)
    (maxIterations : ℕ) (threshold minImprovement : ℚ) (patience : ℕ)
    (hmax : 1 ≤ maxIterations) (Slast Sbest : FlywheelSession)
    (hlast : Slast = runFlywheelModel oracle initialPost wm maxIterations threshold
      false minImprovement patience)
    (hbest : Sbest = runFlywheelModel oracle initialPost wm maxIterations threshold
      true minImprovement patience) :
    (∃ last, Slast.iterations.getLast? = some last ∧
        Slast.finalScore = last.averageScore ∧
        Slast.finalPost =
          some ⟨wm.modelId, wm.friendlyName, last.post.content, last.post.generatedAt⟩) ∧
      (∃ it ∈ Sbest.iterations, it.iteration = Sbest.bestIteration ∧
        Sbest.finalScore = it.averageScore ∧
        Sbest.finalPost =
          some ⟨wm.modelId, wm.friendlyName, it.post.content, it.post.generatedAt⟩) ∧
      ((runFlywheelModel scenarioOracle "draft" scenarioModel 4 90 false 0 0).finalScore
          = 70 ∧
        (runFlywheelModel scenarioOracle "draft" scenarioModel 4 90 true 0 0).finalScore
          = 75 ∧
        (runFlywheelModel scenarioOracle "draft" scenarioModel 4 90 true 0 0).bestIteration
          = 2) := by
  obtain ⟨its, h1, h2, h3, h4⟩ := runFlywheelLoop_spec oracle wm maxIterations threshold
    minImprovement patience (List.range' 1 maxIterations) initialPost [] (0, 0) 0
  rw [List.nil_append] at h1
  simp only [Prod.mk_zero_zero] at h1 h2
  have hne : its ≠ [] := by
    refine h3 ?_
    simp only [ne_eq, List.range'_eq_nil]
    omega
  obtain ⟨last, hgl⟩ : ∃ last, its.getLast? = some last := by
    cases hgl : its.getLast? with
    | none => exact absurd (List.getLast?_eq_none_iff.mp hgl) hne
    | some x => exact ⟨x, rfl⟩
  have hglmem : last ∈ its := List.mem_of_getLast?_eq_some hgl
  have hpos : ∀ it ∈ its, 0 < it.iteration := by
    intro it hit
    obtain ⟨j, _, hj⟩ := List.mem_range'.mp (h4 it hit)
    omega
  have hposlast : 0 < last.iteration := hpos last hglmem
  refine ⟨?_, ?_, ?_⟩
  · subst hlast
    refine ⟨last, ?_, ?_, ?_⟩
    · simp [runFlywheelModel, h1, hgl]
    · simp [runFlywheelModel, h1, h2, hgl]
    · simp [runFlywheelModel, h1, h2, hgl]
  · subst hbest
    by_cases hz : (its.foldl (bestStep minImprovement) 0).2 = 0
    · -- fallback: the best pair becomes the last iteration's score and index
      obtain ⟨it', hit'⟩ : ∃ it',
          its.find? (fun it => it.iteration == last.iteration) = some it' :=
        Option.isSome_iff_exists.mp (List.find?_isSome.mpr ⟨last, hglmem, by simp⟩)
      have hmem' : it' ∈ its := List.mem_of_find?_eq_some hit'
      have hiter' : it'.iteration = last.iteration := by
        simpa using List.find?_some hit'
      refine ⟨it', ?_, ?_, ?_, ?_⟩
      · simpa [runFlywheelModel, h1] using hmem'
      · have hbi : (runFlywheelModel oracle initialPost wm maxIterations threshold
            true minImprovement patience).bestIteration = last.iteration := by
          simp [runFlywheelModel, h1, h2, hgl, hz]
        rw [hbi, hiter']
      · simp [runFlywheelModel, h1, h2, hgl, hz, hposlast, hit']
      · simp [runFlywheelModel, h1, h2, hgl, hz, hposlast, hit']
    · -- no fallback: the loop's best pair stood
      rcases foldl_bestStep_cases minImprovement its 0 with hcase | ⟨itb, hmemb, hcase⟩
      · rw [hcase] at hz
        exact absurd rfl hz
      · have hposb : 0 < (its.foldl (bestStep minImprovement) 0).2 := by
          rw [hcase]
          exact hpos itb hmemb
        obtain ⟨it', hit'⟩ : ∃ it', its.find?
            (fun it => it.iteration == (its.foldl (bestStep minImprovement) 0).2) =
              some it' :=
          Option.isSome_iff_exists.mp (List.find?_isSome.mpr ⟨itb, hmemb, by rw [hcase]; simp⟩)
        have hmem' : it' ∈ its := List.mem_of_find?_eq_some hit'
        have hiter' : it'.iteration = (its.foldl (bestStep minImprovement) 0).2 := by
          simpa using List.find?_some hit'
        refine ⟨it', ?_, ?_, ?_, ?_⟩
        · simpa [runFlywheelModel, h1] using hmem'
        · have hbi : (runFlywheelModel oracle initialPost wm maxIterations threshold
              true minImprovement patience).bestIteration =
                (its.foldl (bestStep minImprovement) 0).2 := by
            simp [runFlywheelModel, h1, h2, hgl, hz]
          rw [hbi, hiter']
        · simp [runFlywheelModel, h1, h2, hgl, hz, hposb, hit']
        · simp [runFlywheelModel, h1, h2, hgl, hz, hposb, hit']
  · norm_num [runFlywheelModel, runFlywheelLoop, List.range', scenarioOracle,
      computeOverallFromJudgments_mkJudgment, bestStep, List.find?, List.getLast?]

/-- Witness for C5: the scenario run itself (maxIterations = 4 ≥ 1). -/
theorem runFlywheel_final_selection_witness :
    (runFlywheelModel scenarioOracle "draft" scenarioModel 4 90 false 0 0).finalScore = 70 ∧
      (runFlywheelModel scenarioOracle "draft" scenarioModel 4 90 true 0 0).finalScore = 75 ∧
      (runFlywheelModel scenarioOracle "draft" scenarioModel 4 90 true 0 0).bestIteration = 2 :=
  (runFlywheel_final_selection scenarioOracle "draft" scenarioModel 4 90 0 0
    (by decide) _ _ rfl rfl).2.2

/-- An oracle whose judge wave always comes back empty (all judges
failed), so every iteration's computed average score is 0. -/
def stalledOracle : FlywheelOracle := ⟨fun _ _ => ([], []), fun _ post => post⟩

/-- Counterexample for C8: a one-iteration run whose only iteration scores
0, which does not strictly exceed `bestScore + minImprovement = 0 + 0` —
the improvement-only `bestStep` fold of the run's iterations therefore
stays at `(0, 0)` — yet the returned session has `bestIteration = 1` and
`bestScore = 0`: the final fallback (src/src/core/flywheel.ts
lines 518–522) sets the best fields from the last iteration even though
no iteration ever strictly improved. -/
theorem runFlywheel_best_fallback_updates_without_improvement :
    (runFlywheelModel stalledOracle "draft" scenarioModel 1 90 false 0 0).iterations.foldl
        (bestStep 0) (0, 0) = (0, 0) ∧
      (runFlywheelModel stalledOracle "draft" scenarioModel 1 90 false 0 0).bestIteration = 1 ∧
      (runFlywheelModel stalledOracle "draft" scenarioModel 1 90 false 0 0).bestScore = 0 ∧
      (runFlywheelModel stalledOracle "draft" scenarioModel 1 90 false 0 0).iterations.length
        = 1 := by
  norm_num [runFlywheelModel, runFlywheelLoop, List.range', stalledOracle, bestStep,
    computeOverallFromJudgments, List.getLast?]

/-- **C8 (amended).** Throughout the loop `bestScore`/`bestIteration` are
updated only when an iteration's computed score strictly exceeds
`bestScore + minImprovement` (the `bestStep` fold); the returned fields
equal the fold of every executed iteration — i.e. the values set by the
last strictly-improving iteration — whenever some iteration strictly
improved; when none did, a final fallback returns the last executed
iteration's score and index instead. -/
theorem runFlywheel_best_tracking
    (oracle : FlywheelOracle) (initialPost : String) (wm : ModelConfig)
    (maxIterations : ℕ) (threshold : ℚ) (keepBest : Bool) (minImprovement : ℚ)
    (patience : ℕ) (hmax : 1 ≤ maxIterations) (S : FlywheelSession)
    (hS : S = runFlywheelModel oracle initialPost wm maxIterations threshold keepBest
      minImprovement patience) :
    ((S.iterations.foldl (bestStep minImprovement) (0, 0)).2 ≠ 0 →
        (S.bestScore, S.bestIteration) =
          S.iterations.foldl (bestStep minImprovement) (0, 0)) ∧
      ((S.iterations.foldl (bestStep minImprovement) (0, 0)).2 = 0 →
        ∃ last, S.iterations.getLast? = some last ∧
          S.bestScore = last.averageScore ∧ S.bestIteration = last.iteration) := by
  obtain ⟨its, h1, h2, h3, h4⟩ := runFlywheelLoop_spec oracle wm maxIterations threshold
    minImprovement patience (List.range' 1 maxIterations) initialPost [] (0, 0) 0
  rw [List.nil_append] at h1
  simp only [Prod.mk_zero_zero] at h1 h2
  have hne : its ≠ [] := by
    refine h3 ?_
    simp only [ne_eq, List.range'_eq_nil]
    omega
  obtain ⟨last, hgl⟩ : ∃ last, its.getLast? = some last := by
    cases hgl : its.getLast? with
    | none => exact absurd (List.getLast?_eq_none_iff.mp hgl) hne
    | some x => exact ⟨x, rfl⟩
  have hits : S.iterations = its := by
    rw [hS]
    simp [runFlywheelModel, h1]
  rw [hits]
  simp only [Prod.mk_zero_zero]
  constructor
  · intro hnz
    rw [hS]
    simp [runFlywheelModel, h1, h2, hgl, hnz]
  · intro hzz
    refine ⟨last, hgl, ?_, ?_⟩ <;>
      · rw [hS]
        simp [runFlywheelModel, h1, h2, hgl, hzz]

/-- Witness for C8 (amended): the tracking characterization at the
four-iteration scenario run. -/
theorem runFlywheel_best_tracking_witness :
    (((runFlywheelModel scenarioOracle "draft" scenarioModel 4 90 false 0
            0).iterations.foldl (bestStep 0) (0, 0)).2 ≠ 0 →
        ((runFlywheelModel scenarioOracle "draft" scenarioModel 4 90 false 0 0).bestScore,
            (runFlywheelModel scenarioOracle "draft" scenarioModel 4 90 false 0
              0).bestIteration) =
          (runFlywheelModel scenarioOracle "draft" scenarioModel 4 90 false 0
            0).iterations.foldl (bestStep 0) (0, 0)) ∧
      (((runFlywheelModel scenarioOracle "draft" scenarioModel 4 90 false 0
            0).iterations.foldl (bestStep 0) (0, 0)).2 = 0 →
        ∃ last, (runFlywheelModel scenarioOracle "draft" scenarioModel 4 90 false 0
            0).iterations.getLast? = some last ∧
          (runFlywheelModel scenarioOracle "draft" scenarioModel 4 90 false 0 0).bestScore =
            last.averageScore ∧
          (runFlywheelModel scenarioOracle "draft" scenarioModel 4 90 false 0
            0).bestIteration = last.iteration) :=
  runFlywheel_best_tracking scenarioOracle "draft" scenarioModel 4 90 false 0 0
    (by decide) _ rfl

/-! ### C10: criterion-name normalization and score validation
(src/unnamed/part_007 lines 28–52 and 119–178) -/

/-- A JavaScript value as far as the judgment validator inspects one: a
string, a number (`JSNum`), or anything else.  (`typeof raw !== 'string'`
and `typeof score !== 'number'` are the only type tests performed.) -/
inductive JSVal where
  | str (s : String)
  | num (n : JSNum)
  | other
  deriving DecidableEq, Repr

/-- ASCII whitespace, the JS `trim` characters that can occur in ASCII
criterion names. -/
def isSpaceChar (ch : Char) : Bool :=
  ch = ' ' ∨ ch = '\t' ∨ ch = '\n' ∨ ch = '\r'

/-- `trim()` at the character-list level: drop whitespace from both ends. -/
def trimChars (l : List Char) : List Char :=
  ((l.dropWhile isSpaceChar).reverse.dropWhile isSpaceChar).reverse

/-- `toLowerCase()` per character, at the ASCII level (which agrees with
JS `toLowerCase` on ASCII input; characters outside `a`–`z` are removed
by the following filter either way). -/
def asciiLower (ch : Char) : Char :=
  if 'A' ≤ ch ∧ ch ≤ 'Z' then Char.ofNat (ch.toNat + 32) else ch

/-- `raw.trim().toLowerCase().replace(/[^a-z]/g, '')`
(src/unnamed/part_007 line 30): trim, lower-case, then keep only the
letters `a`–`z`. -/
def canonKey (raw : String) : String :=
  String.mk (((trimChars raw.toList).map asciiLower).filter fun ch => 'a' ≤ ch ∧ ch ≤ 'z')

/-- `normalizeCriterion` (src/unnamed/part_007 lines 28–52): `null` for a
non-string, otherwise the `switch` over the canonical key. -/
def normalizeCriterion (raw : JSVal) : Option Criterion :=
  match raw with
  | .str s =>
      let key := canonKey s
      if key = "narrative" ∨ key = "narrativeflow" ∨ key = "flow" then some .narrative
      else if key = "structure" then some .«structure»
      else if key = "audiencefit" ∨ key = "audience" then some .audienceFit
      else if key = "accuracy" then some .accuracy
      else if key = "aidetection" ∨ key = "ai" ∨ key = "aiflag" then some .aiDetection
      else none
  | _ => none

/-- The synonym table exactly as the claim lists it, as data: the
spec-side reference for the `switch` in `normalizeCriterion`. -/
def criterionSynonyms : List (String × Criterion) :=
  [("narrative", .narrative), ("narrativeflow", .narrative), ("flow", .narrative),
   ("structure", .«structure»),
   ("audiencefit", .audienceFit), ("audience", .audienceFit),
   ("accuracy", .accuracy),
   ("aidetection", .aiDetection), ("ai", .aiDetection), ("aiflag", .aiDetection)]

/-- Table lookup by canonical key. -/
def synonymLookup (key : String) : Option Criterion :=
  (criterionSynonyms.find? fun p => p.1 == key).map fun p => p.2

/-- One element of the `scores` array as the validator inspects it: either
not an object, or an object with the three accessed properties. -/
inductive RawEntry where
  | nonObject
  | obj (criterion : JSVal) (score : JSVal) (feedback : JSVal)
  deriving DecidableEq, Repr

/-- The per-entry loop of `validateAndNormalizeScores`
(src/unnamed/part_007 lines 128–164) followed by the completeness checks
(lines 166–175), threading the `seen` set, the normalized list and the
warnings.  Error messages are abbreviated forms of the source's. -/
def validateLoop :
    List RawEntry → List Criterion → List CriterionScore → List String →
      Except String (List CriterionScore × List String)
  | [], seen, normalized, warnings =>
      match CRITERIA_KEYS.find? fun required => !seen.contains required with
      | some _ => .error "Invalid judge response: missing criterion"
      | none =>
          if normalized.length ≠ CRITERIA_KEYS.length then
            .error "Invalid judge response: wrong score count"
          else .ok (normalized, warnings)
  | raw :: rest, seen, normalized, warnings =>
      match raw with
      | .nonObject => .error "Invalid judge response: each score must be an object"
      | .obj rawCriterion rawScore rawFeedback =>
          match normalizeCriterion rawCriterion with
          | none => .error "Invalid judge response: unknown criterion"
          | some criterion =>
              if seen.contains criterion then
                .error "Invalid judge response: duplicate criterion"
              else
                match rawScore with
                | .num (.finite q) =>
                    if q < 1 ∨ 100 < q then
                      .error "Invalid judge response: score must be 1-100"
                    else
                      match rawFeedback with
                      | .str f =>
                          validateLoop rest (seen ++ [criterion])
                            (normalized ++ [⟨criterion, q, f⟩])
                            (if f.trim.length = 0 then
                              warnings ++ ["Empty feedback"] else warnings)
                      | _ => .error "Invalid judge response: feedback must be a string"
                | _ => .error "Invalid judge response: score must be a number"

/-- The `scores` value handed to `validateAndNormalizeScores`: either not
an array, or an array of entries. -/
inductive ScoresVal where
  | notArray
  | arr (entries : List RawEntry)
  deriving DecidableEq, Repr

/-- `validateAndNormalizeScores` (src/unnamed/part_007 lines 119–178):
reject non-arrays, then run the entry loop with empty state.  A score of
`NaN` fails the `Number.isFinite` check and is embedded as a non-finite
`JSNum`, rejected by the `score must be a number` branch. -/
def validateAndNormalizeScores (input : ScoresVal) :
    Except String (List CriterionScore × List String) :=
  match input with
  | .notArray => .error "Invalid judge response: scores must be an array"
  | .arr entries => validateLoop entries [] [] []

/-- A `scores` array containing an entry whose criterion fails
normalization (unknown name or non-string) always makes validation fail,
whatever came before or after it. -/
theorem validateLoop_error_of_unknown (entries : List RawEntry) :
    ∀ (seen : List Criterion) (normalized : List CriterionScore) (warnings : List String),
      (∃ c sc fb, RawEntry.obj c sc fb ∈ entries ∧ normalizeCriterion c = none) →
      exceptFailed (validateLoop entries seen normalized warnings) = true := by
  induction entries with
  | nil =>
      rintro seen normalized warnings ⟨c, sc, fb, hmem, -⟩
      exact absurd hmem (List.not_mem_nil _)
  | cons raw rest ih =>
      rintro seen normalized warnings ⟨c, sc, fb, hmem, hnone⟩
      cases raw with
      | nonObject => rfl
      | obj rc rs rf =>
          rcases hnorm : normalizeCriterion rc with - | crit
          · simp [validateLoop, hnorm, exceptFailed]
          · have hrest : ∃ c sc fb, RawEntry.obj c sc fb ∈ rest ∧
                normalizeCriterion c = none := by
              rcases List.mem_cons.mp hmem with heq | hmem'
              · injection heq with hc hs hf
                subst hc
                rw [hnone] at hnorm
                cases hnorm
              · exact ⟨c, sc, fb, hmem', hnone⟩
            by_cases hseen : crit ∈ seen
            · simp [validateLoop, hnorm, hseen, exceptFailed]
            · cases rs with
              | str s => simp [validateLoop, hnorm, hseen, exceptFailed]
              | other => simp [validateLoop, hnorm, hseen, exceptFailed]
              | num n =>
                  cases n with
                  | nan => simp [validateLoop, hnorm, hseen, exceptFailed]
                  | posInf => simp [validateLoop, hnorm, hseen, exceptFailed]
                  | negInf => simp [validateLoop, hnorm, hseen, exceptFailed]
                  | finite q =>
                      by_cases hq : q < 1 ∨ 100 < q
                      · simp [validateLoop, hnorm, hseen, hq, exceptFailed]
                      · cases rf with
                        | num m => simp [validateLoop, hnorm, hseen, hq, exceptFailed]
                        | other => simp [validateLoop, hnorm, hseen, hq, exceptFailed]
                        | str f =>
                            simp only [validateLoop, hnorm]
                            rw [if_neg (by simpa using hseen), if_neg hq]
                            exact ih _ _ _ hrest

/-- **C10.** Criterion-name normalization is case- and
punctuation-insensitive — it factors through the canonical key obtained by
lower-casing and deleting every non-letter — and accepts exactly the
synonym table {narrative, narrativeflow, flow → narrative; structure →
structure; audiencefit, audience → audienceFit; accuracy → accuracy;
aidetection, ai, aiflag → aiDetection}; any other criterion name, and any
non-string criterion, makes score validation fail. -/
theorem normalizeCriterion_characterization :
    (∀ s : String, normalizeCriterion (.str s) = synonymLookup (canonKey s)) ∧
      (∀ s t : String, canonKey s = canonKey t →
        normalizeCriterion (.str s) = normalizeCriterion (.str t)) ∧
      (∀ v : JSVal, (∀ s, v ≠ .str s) → normalizeCriterion v = none) ∧
      (∀ entries : List RawEntry,
        (∃ c sc fb, RawEntry.obj c sc fb ∈ entries ∧ normalizeCriterion c = none) →
        exceptFailed (validateAndNormalizeScores (.arr entries)) = true) := by
  refine ⟨?_, ?_, ?_, ?_⟩
  · intro s
    simp only [normalizeCriterion]
    generalize canonKey s = k
    split_ifs with h1 h2 h3 h4 h5
    · rcases h1 with rfl | rfl | rfl <;> simp +decide [synonymLookup, criterionSynonyms]
    · subst h2; simp +decide [synonymLookup, criterionSynonyms]
    · rcases h3 with rfl | rfl <;> simp +decide [synonymLookup, criterionSynonyms]
    · subst h4; simp +decide [synonymLookup, criterionSynonyms]
    · rcases h5 with rfl | rfl | rfl <;> simp +decide [synonymLookup, criterionSynonyms]
    · have hfind : criterionSynonyms.find? (fun p => p.1 == k) = none := by
        rw [List.find?_eq_none]
        intro p hp
        fin_cases hp <;>
          · simp only [beq_iff_eq]
            intro hcontra
            subst hcontra
            simp at h1 h2 h3 h4 h5
      simp [synonymLookup, hfind]
  · intro s t h
    simp only [normalizeCriterion, h]
  · intro v hv
    cases v with
    | str s => exact absurd rfl (hv s)
    | num n => rfl
    | other => rfl
  · intro entries hbad
    exact validateLoop_error_of_unknown entries [] [] [] hbad

/-- Witness for C10: the factoring at a decorated name, insensitivity
between two spellings of the narrative criterion, rejection of a
non-string criterion, and a validation failure on an unknown name. -/
theorem normalizeCriterion_characterization_witness :
    normalizeCriterion (.str " Narrative-Flow! ") =
        synonymLookup (canonKey " Narrative-Flow! ") ∧
      normalizeCriterion (.str "FLOW") = normalizeCriterion (.str "flow") ∧
      normalizeCriterion .other = none ∧
      exceptFailed (validateAndNormalizeScores
        (.arr [RawEntry.obj (.str "vibes") (.num (.finite 50)) (.str "fb")])) = true :=
  ⟨normalizeCriterion_characterization.1 " Narrative-Flow! ",
   normalizeCriterion_characterization.2.1 "FLOW" "flow" (by decide),
   normalizeCriterion_characterization.2.2.1 .other (fun s h => nomatch h),
   normalizeCriterion_characterization.2.2.2 _
     ⟨.str "vibes", .num (.finite 50), .str "fb", by simp, by decide⟩⟩

/-! ### The line diff engine (src/src/types/index.ts lines 359–571)

All string plumbing is embedded at the character-list level so every
definition evaluates inside the kernel. -/

/-- `\r\n → \n` normalization of `splitLines`
(src/src/types/index.ts line 374). -/
def replaceCRLF : List Char → List Char
  | [] => []
  | '\r' :: '\n' :: rest => '\n' :: replaceCRLF rest
  | c :: rest => c :: replaceCRLF rest

/-- JS `split('\n')` on a character list: `""` gives `[""]`, a trailing
newline gives a trailing empty line. -/
def splitOnNewline : List Char → List (List Char)
  | [] => [[]]
  | '\n' :: rest => [] :: splitOnNewline rest
  | c :: rest =>
      match splitOnNewline rest with
      | [] => [[c]]
      | line :: lines => (c :: line) :: lines

/-- `splitLines` (src/src/types/index.ts lines 372–376). -/
def splitLines (text : String) : List String :=
  (splitOnNewline (replaceCRLF text.toList)).map String.mk

/-- `Edit['type']` (src/src/types/index.ts line 370). -/
inductive EditType where
  | equal
  | insert
  | delete
  deriving DecidableEq, Repr

/-- `Edit` (src/src/types/index.ts line 370). -/
structure Edit where
  type : EditType
  line : String
  deriving DecidableEq, Repr

/-- `v.get(k)` on the diagonal map, embedded as a shadowing lookup list
(`set` prepends, `find?` sees the newest binding first — the JS `Map`'s
overwrite semantics). -/
def vGet (v : List (Int × ℕ)) (k : Int) : Option ℕ :=
  (v.find? fun p => p.1 == k).map fun p => p.2

/-- `v.set(k, x)`. -/
def vSet (v : List (Int × ℕ)) (k : Int) (x : ℕ) : List (Int × ℕ) :=
  (k, x) :: v

/-- JS `b[y]` for a possibly negative index. -/
def lineAt (l : List String) (y : Int) : Option String :=
  if y < 0 then none else l.get? y.toNat

/-- The forward snake of `myersDiff` (src/src/types/index.ts
lines 406–409): advance through equal lines.  The fuel is the remaining
room `a.length - x`, which bounds the loop. -/
def snakeAux (a b : List String) : ℕ → ℕ → Int → ℕ × Int
  | 0, x, y => (x, y)
  | fuel + 1, x, y =>
      if x < a.length ∧ y < (b.length : Int) ∧ a.get? x = lineAt b y then
        snakeAux a b fuel (x + 1) (y + 1)
      else (x, y)

/-- `k = -d, -d+2, …, d`. -/
def kRange (d : ℕ) : List Int :=
  (List.range (d + 1)).map fun j => -(d : Int) + 2 * (j : Int)

/-- The backward snake of `backtrack` (src/src/types/index.ts
lines 447–451): walk the diagonal back, recording `equal` edits.  Edits
are accumulated by prepending, which yields directly the final
(reversed) order of the source's push-then-reverse. -/
def backSnakeAux (a : List String) :
    ℕ → Int → Int → Int → Int → List Edit → Int × Int × List Edit
  | 0, x, y, _, _, acc => (x, y, acc)
  | fuel + 1, x, y, prevX, prevY, acc =>
      if prevX < x ∧ prevY < y then
        backSnakeAux a fuel (x - 1) (y - 1) prevX prevY
          ({ type := .equal, line := ((lineAt a (x - 1)).getD "") } :: acc)
      else (x, y, acc)

/-- One layer of `backtrack` per trace generation, from layer
`trace.length - 1` down to 0 (src/src/types/index.ts lines 422–468). -/
def backtrackAux (a b : List String) :
    List (List (Int × ℕ) × ℕ) → Int → Int → List Edit → List Edit
  | [], _, _, acc => acc
  | (v, d) :: rest, x, y, acc =>
      let k := x - y
      let down := k = -(d : Int)
      let up := k = (d : Int)
      let kPlus := vGet v (k + 1)
      let kMinus := vGet v (k - 1)
      let prevK :=
        if down ∨ (¬up ∧ ((kMinus.map Int.ofNat).getD (-1) <
            (kPlus.map Int.ofNat).getD (-1))) then k + 1
        else k - 1
      let prevX : Int := ((vGet v prevK).getD 0 : ℕ)
      let prevY := prevX - prevK
      match backSnakeAux a ((x - prevX).toNat) x y prevX prevY acc with
      | (x', y', acc') =>
        if d = 0 then acc'
        else if x' = prevX then
          backtrackAux a b rest x' (y' - 1)
            ({ type := .insert, line := (lineAt b (y' - 1)).getD "" } :: acc')
        else
          backtrackAux a b rest (x' - 1) y'
            ({ type := .delete, line := (lineAt a (x' - 1)).getD "" } :: acc')

/-- `backtrack` (src/src/types/index.ts lines 422–468). -/
def backtrack (trace : List (List (Int × ℕ))) (a b : List String) : List Edit :=
  backtrackAux a b ((trace.zip (List.range trace.length)).reverse)
    (a.length : Int) (b.length : Int) []

/-- The inner `k` loop of `myersDiff` (src/src/types/index.ts
lines 390–416), threading `v` and returning early with the backtracked
edits when the far corner is reached. -/
def runK (a b : List String) (d : ℕ) (trace : List (List (Int × ℕ))) :
    List Int → List (Int × ℕ) → Sum (List Edit) (List (Int × ℕ))
  | [], v => .inr v
  | k :: ks, v =>
      let down := k = -(d : Int)
      let up := k = (d : Int)
      let kPlus := vGet v (k + 1)
      let kMinus := vGet v (k - 1)
      let x0 : ℕ :=
        if down ∨ (¬up ∧ ((kMinus.map Int.ofNat).getD (-1) <
            (kPlus.map Int.ofNat).getD (-1))) then kPlus.getD 0
        else kMinus.getD 0 + 1
      match snakeAux a b (a.length - x0) x0 ((x0 : Int) - k) with
      | (x, y) =>
        let v' := vSet v k x
        if a.length ≤ x ∧ (b.length : Int) ≤ y then .inl (backtrack trace a b)
        else runK a b d trace ks v'

/-- The outer `d` loop of `myersDiff` (src/src/types/index.ts
lines 386–417): push a copy of `v` onto the trace, run the `k` loop, and
fall through to `[]` when the loop ends without reaching the corner. -/
def runD (a b : List String) : List ℕ → List (Int × ℕ) → List (List (Int × ℕ)) → List Edit
  | [], _, _ => []
  | d :: ds, v, trace =>
      let fullTrace := trace ++ [v]
      match runK a b d fullTrace (kRange d) v with
      | .inl edits => edits
      | .inr v' => runD a b ds v' fullTrace

/-- `myersDiff` (src/src/types/index.ts lines 378–420): `v` starts as
`{1 ↦ 0}`, `d` ranges over `0 … n + m`. -/
def myersDiff (a b : List String) : List Edit :=
  runD a b (List.range (a.length + b.length + 1)) [(1, 0)] []

/-- A line of a rendered hunk; the source's `prefix` field is named
`marker` here (`' '`, `'+'` or `'-'`). -/
structure HunkLine where
  marker : Char
  line : String
  deriving DecidableEq, Repr

/-- `Hunk` (src/src/types/index.ts lines 490–496). -/
structure Hunk where
  oldStart : ℕ
  oldLen : ℕ
  newStart : ℕ
  newLen : ℕ
  lines : List HunkLine
  deriving DecidableEq, Repr

/-- The indices of non-`equal` edits (src/src/types/index.ts
lines 504–507). -/
def changeIndices (edits : List Edit) : List ℕ :=
  (edits.enum.filter fun p => p.2.type ≠ .equal).map fun p => p.1

/-- The inner merge loop of the hunk builder (src/src/types/index.ts
lines 514–518): absorb following change indices while each is
`≤ last + 1`, returning the run's last index and the remaining indices. -/
def takeRun : ℕ → List ℕ → ℕ × List ℕ
  | last, [] => (last, [])
  | last, i :: rest => if i ≤ last + 1 then takeRun i rest else (last, i :: rest)

theorem takeRun_length_le (last : ℕ) (l : List ℕ) :
    (takeRun last l).2.length ≤ l.length := by
  induction l generalizing last with
  | nil => simp [takeRun]
  | cons i rest ih =>
      simp only [takeRun]
      split
      · exact le_trans (ih i) (Nat.le_succ _)
      · exact le_refl _

/-- Replaying edits to count consumed old/new lines
(src/src/types/index.ts lines 526–530). -/
def countOldNew (edits : List Edit) : ℕ × ℕ :=
  edits.foldl
    (fun acc e =>
      match e.type with
      | .equal => (acc.1 + 1, acc.2 + 1)
      | .delete => (acc.1 + 1, acc.2)
      | .insert => (acc.1, acc.2 + 1))
    (0, 0)

/-- The hunk-line collection loop (src/src/types/index.ts
lines 539–552). -/
def hunkLinesFor (edits : List Edit) (hunkStart hunkEnd : ℕ) :
    List HunkLine × ℕ × ℕ :=
  ((edits.drop hunkStart).take (hunkEnd + 1 - hunkStart)).foldl
    (fun acc e =>
      match e.type with
      | .equal => (acc.1 ++ [⟨' ', e.line⟩], acc.2.1 + 1, acc.2.2 + 1)
      | .delete => (acc.1 ++ [⟨'-', e.line⟩], acc.2.1 + 1, acc.2.2)
      | .insert => (acc.1 ++ [⟨'+', e.line⟩], acc.2.1, acc.2.2 + 1))
    ([], 0, 0)

/-- The hunk-building loop of `unifiedDiff` (src/src/types/index.ts
lines 509–557): group each change run, pad by `context` on both sides
(`Nat` subtraction is the source's `Math.max(0, …)`), and compute the
1-based start lines by replaying the edits before the hunk.  The fuel is
an upper bound on the loop's iterations (each pass consumes at least one
change index, so the index list's length suffices); it keeps the
recursion structural so that the definition evaluates in the kernel. -/
def buildHunks (edits : List Edit) (context : ℕ) : ℕ → List ℕ → List Hunk
  | _, [] => []
  | 0, _ => []
  | fuel + 1, first :: rest =>
      match takeRun first rest with
      | (last, rest') =>
        let hunkStart := first - context
        let hunkEnd := min (edits.length - 1) (last + context)
        let starts := countOldNew (edits.take hunkStart)
        match hunkLinesFor edits hunkStart hunkEnd with
        | (lines, oldLen, newLen) =>
          ⟨starts.1 + 1, oldLen, starts.2 + 1, newLen, lines⟩ ::
            buildHunks edits context fuel rest'

/-- The hunks `unifiedDiff` renders for two texts at a given context
width. -/
def unifiedDiffHunks (oldText newText : String) (context : ℕ) : List Hunk :=
  let edits := myersDiff (splitLines oldText) (splitLines newText)
  buildHunks edits context (changeIndices edits).length (changeIndices edits)

/-- `formatRange` (src/src/types/index.ts lines 470–474). -/
def formatRange (startLine length : ℕ) : String :=
  if length = 0 then toString startLine ++ ",0"
  else if length = 1 then toString startLine
  else toString startLine ++ "," ++ toString length

/-- One rendered hunk: header plus marker-prefixed lines
(src/src/types/index.ts lines 563–568). -/
def renderHunk (h : Hunk) : String :=
  "@@ -" ++ formatRange h.oldStart h.oldLen ++ " +" ++
    formatRange h.newStart h.newLen ++ " @@\n" ++
    String.join (h.lines.map fun l => String.mk [l.marker] ++ l.line ++ "\n")

/-- `unifiedDiff` (src/src/types/index.ts lines 476–571); the
`fromFile`/`toFile`/`context` options are explicit parameters (their
source defaults are `"a"`, `"b"`, `3`). -/
def unifiedDiff (oldText newText fromFile toFile : String) (context : ℕ) : String :=
  let edits := myersDiff (splitLines oldText) (splitLines newText)
  if ¬(edits.any fun e => e.type ≠ .equal) then ""
  else
    "--- " ++ fromFile ++ "\n" ++ "+++ " ++ toFile ++ "\n" ++
      String.join ((buildHunks edits context (changeIndices edits).length
        (changeIndices edits)).map renderHunk)

/-- Modelled from the spec: applying rendered hunks to the old line
sequence — copy old lines up to each hunk's `oldStart`, keep the hunk's
context lines, drop its `-` lines, insert its `+` lines, resume after the
`oldLen` lines the hunk covers, and copy the remaining old lines at the
end (the claim's round-trip law). -/
def applyHunks : List Hunk → ℕ → List String → List String
  | [], pos, old => old.drop (pos - 1)
  | h :: rest, pos, old =>
      (old.drop (pos - 1)).take (h.oldStart - pos) ++
        (h.lines.filterMap fun l => if l.marker = '-' then none else some l.line) ++
        applyHunks rest (h.oldStart + h.oldLen) old

/-- Apply a hunk list starting from line 1. -/
def applyUnifiedHunks (hunks : List Hunk) (old : List String) : List String :=
  applyHunks hunks 1 old

/-- Hunks in proper unified-diff form: each hunk ends strictly before the
next begins on both sides (no overlapping, no touching ranges). -/
def hunksSeparated (hs : List Hunk) : Prop :=
  List.Chain'
    (fun h1 h2 => h1.oldStart + h1.oldLen < h2.oldStart ∧
      h1.newStart + h1.newLen < h2.newStart) hs

/-- **C4 (failing evaluation).** On `"x\nc\ny"` vs `"c"` — two deletions
separated by one kept line — the hunk builder emits the same
full-coverage hunk twice (the merge condition
`changeIndices[idx+1] <= lastChange + 1` only merges strictly adjacent
changes, never runs whose context-expanded ranges overlap), so applying
the rendered hunks to the old text yields `["c", "c"]`, not the new text
`["c"]`; the round-trip law fails.  Line-identical inputs do produce the
empty string. -/
theorem unifiedDiff_roundTrip_fails :
    splitLines "x\nc\ny" ≠ splitLines "c" ∧
      splitLines "c" = ["c"] ∧
      applyUnifiedHunks (unifiedDiffHunks "x\nc\ny" "c" 3) (splitLines "x\nc\ny") =
        ["c", "c"] ∧
      unifiedDiff "x\nc\ny" "c" "a" "b" 3 =
        "--- a\n+++ b\n@@ -1,3 +1 @@\n-x\n c\n-y\n@@ -1,3 +1 @@\n-x\n c\n-y\n" ∧
      unifiedDiff "x\nc\ny" "x\nc\ny" "a" "b" 3 = "" := by decide

/-- **C7 (failing evaluation).** On the same input the two rendered hunks
both cover old lines 1–3 (and new line 1): their expanded ranges overlap
outright, refuting the claim that merged hunks never overlap or touch. -/
theorem unifiedDiff_hunks_not_separated :
    (unifiedDiffHunks "x\nc\ny" "c" 3).map
        (fun h => (h.oldStart, h.oldLen, h.newStart, h.newLen)) =
      [(1, 3, 1, 1), (1, 3, 1, 1)] ∧
      ¬hunksSeparated (unifiedDiffHunks "x\nc\ny" "c" 3) := by
  refine ⟨by decide, ?_⟩
  rw [show unifiedDiffHunks "x\nc\ny" "c" 3 =
      [⟨1, 3, 1, 1, [⟨'-', "x"⟩, ⟨' ', "c"⟩, ⟨'-', "y"⟩]⟩,
       ⟨1, 3, 1, 1, [⟨'-', "x"⟩, ⟨' ', "c"⟩, ⟨'-', "y"⟩]⟩] from by decide]
  intro hsep
  simp only [hunksSeparated, List.chain'_cons, List.chain'_singleton, and_true] at hsep
  omega

end Writeoff
